import Mathlib

/-!
# Verification of the llmpt P2P coordination core

Shallow embedding of the coordination layer of the `llmpt` client
(`llmpt/p2p_batch.py` and `llmpt/tracker_client.py`) together with proofs
about the embedded operations.

Modelling conventions:
* Python dictionaries keyed by strings become association lists.
* `threading.Event` objects are modelled by numeric identities
  (`nextEventId` allocates them); the set of signalled events is the list
  `eventsSet`.
* Engine-side effects (`rename_file`, `file_priority`, `add_torrent`,
  `resume`, creating a padding file, querying the tracker) are recorded in
  an action log, and the engine-visible per-file priorities are mirrored in
  a `priorities` list.
* The external engine's observable behaviour during one monitor tick
  (error flag, metadata availability, per-file byte progress) is an
  explicit `EngineReport` argument.
* Filesystem/side-channel details that no claim depends on (fastresume
  loading, the `TEST_SEEDER_PEER` hook, log messages) are omitted.
-/

namespace Llmpt

/-! ## String helpers

Char-list implementations of the Python string operations used by the
source (`str.replace` of single characters, `str.split(sep, 1)`,
`str.startswith`, substring containment), kept structurally recursive so
that they evaluate inside the kernel. -/

/-- Python `path.replace('\\', '/')` (character-wise replacement). -/
def normalizePath (p : String) : String :=
  ⟨p.data.map (fun c => if c = '\\' then '/' else c)⟩

/-- Split a character list at the first occurrence of `sep`:
`some (before, after)` when `sep` occurs, `none` otherwise.
This is Python `s.split(sep, 1)` restricted to a one-character separator. -/
def splitFirst (sep : Char) : List Char → Option (List Char × List Char)
  | [] => none
  | c :: rest =>
    if c = sep then some ([], rest)
    else (splitFirst sep rest).map (fun q => (c :: q.1, q.2))

/-- `parts = p.split('/', 1); parts[1] if len(parts) == 2 else None`:
the path with its first (top-level) directory component stripped. -/
def stripTopDir (p : String) : Option String :=
  (splitFirst '/' p.data).map (fun q => ⟨q.2⟩)

/-- `hay.startswith(needle)` on character lists. -/
def startsWithChars : List Char → List Char → Bool
  | _, [] => true
  | [], _ :: _ => false
  | h :: hs, n :: ns => h = n && startsWithChars hs ns

/-- Python `needle in hay` (substring containment) on character lists. -/
def containsChars (needle : List Char) : List Char → Bool
  | [] => startsWithChars [] needle
  | c :: rest => startsWithChars (c :: rest) needle || containsChars needle rest

/-! ## Descriptor resolver (`llmpt/tracker_client.py`) -/

/-- One torrent record as returned by the tracker registry. -/
structure TorrentEntry where
  info_hash : String
  magnet_link : String
  revision : String
deriving DecidableEq

/-- The observable parts of the HTTP response to `GET /api/v1/torrents`:
status code, the list stored under the body key `'torrents'` (empty when
the key is absent or its list empty, both falsy in Python), and the list
stored under the body key `'data'`. -/
structure HttpResponse where
  status_code : Nat
  torrents : List TorrentEntry
  dataField : List TorrentEntry
deriving DecidableEq

/-- `TrackerClient.get_torrent_info` response handling, from
`llmpt/tracker_client.py` lines 52-89: HTTP 404 returns `None`; any other
error status raises and is caught, returning `None`; otherwise the first
element of the body's `'torrents'` list is returned, or `None` when that
list is absent/empty.  Note: the revision argument plays no role. -/
def TrackerClient.get_torrent_info (resp : HttpResponse) : Option TorrentEntry :=
  if resp.status_code == 404 then none
  else if 400 ≤ resp.status_code then none
  else
    match resp.torrents with
    | [] => none
    | t :: _ => some t

/-- Modelled from the spec: spec §6 describes the resolver protocol as
`GET /api/v1/torrents?repo_id=<id>` returning `{ "data": [...] }`, the
caller filtering the returned list locally by revision or taking the
newest (first) entry when no revision is given, with HTTP 404 or an empty
`data` list meaning "not found".  This is also the behaviour encoded by
the repository's own unit tests (`tests/unit/test_tracker.py`), which the
checked-in `tracker_client.py` does not implement. -/
def TrackerClient.get_torrent_info_specModel (resp : HttpResponse)
    (revision : Option String) : Option TorrentEntry :=
  if resp.status_code == 404 then none
  else if 400 ≤ resp.status_code then none
  else
    match revision with
    | none => resp.dataField.head?
    | some rev => (resp.dataField.filter (fun t => t.revision == rev)).head?

/-! ## Session data model (`llmpt/p2p_batch.py`) -/

/-- One file of the transfer metadata: its path inside the torrent and its
total size in bytes. -/
structure EngineFile where
  path : String
  size : Nat
deriving DecidableEq, Inhabited

/-- The tracker metadata dictionary, reduced to the only key the session
initialization reads: `magnet_link` (`none` models a dictionary lacking
the key). -/
structure TorrentMeta where
  magnet_link : Option String
deriving DecidableEq

/-- Engine-directed effects performed by the coordination layer, recorded
in order. -/
inductive Action where
  | queryResolver (repo rev : String)
  | addTorrent
  | prioritizeAll (n : Nat)
  | resume
  | rename (idx : Nat) (path : String)
  | setPriority (idx : Nat) (p : Nat)
  | setEvent (eid : Nat)
  | saveResume
  | createPad (path : String) (content : List Nat)
deriving DecidableEq

/-- The mutable state of one `SessionContext`. -/
structure SessionState where
  repo_id : String
  revision : String
  timeout : Nat
  is_seeder : Bool
  is_valid : Bool
  handle : Bool
  temp_dir : String
  torrent_info_obj : Option (List EngineFile)
  file_events : List (String × Nat)
  eventsSet : List Nat
  file_destinations : List (String × String)
  priorities : List Nat
  nextEventId : Nat
  log : List Action
deriving DecidableEq

/-- `SessionContext.__init__`: a fresh session for one (repo, revision)
key. -/
def SessionContext.new (repo rev : String) (timeout : Nat) (is_seeder : Bool) :
    SessionState where
  repo_id := repo
  revision := rev
  timeout := timeout
  is_seeder := is_seeder
  is_valid := true
  handle := false
  temp_dir := "~/.cache/huggingface/hub/p2p_root"
  torrent_info_obj := none
  file_events := []
  eventsSet := []
  file_destinations := []
  priorities := []
  nextEventId := 0
  log := []

/-- `self.file_events.get(filename)` (the event's identity). -/
def lookupEvent (s : SessionState) (f : String) : Option Nat :=
  (s.file_events.find? (fun p => p.1 == f)).map (·.2)

/-- `self.file_destinations[filename]`. -/
def lookupDest (s : SessionState) (f : String) : Option String :=
  (s.file_destinations.find? (fun p => p.1 == f)).map (·.2)

/-! ## File-index resolution (`SessionContext._find_file_index`) -/

/-- The per-file match test of `_find_file_index`: exact path equality
(case 1), or equality after stripping a single top-level directory
component (case 2).  Both paths are backslash-normalized; `tn` is the
already-normalized target. -/
def fileMatches (ltPath tn : String) : Bool :=
  let p := normalizePath ltPath
  p == tn ||
    (match stripTopDir p with
     | some r => r == tn
     | none => false)

/-- First index of a matching path. -/
def findMatchIdx (tn : String) : List EngineFile → Option Nat
  | [] => none
  | f :: rest =>
    match fileMatches f.path tn with
    | true => some 0
    | false => (findMatchIdx tn rest).map (· + 1)

/-- `SessionContext._find_file_index` over the metadata's file list:
the first index whose path matches the (normalized) requested filename,
`none` when no path matches. -/
def SessionContext.find_file_index (files : List EngineFile) (target : String) :
    Option Nat :=
  findMatchIdx (normalizePath target) files

theorem findMatchIdx_eq_none {tn : String} {files : List EngineFile} :
    findMatchIdx tn files = none ↔ ∀ f ∈ files, fileMatches f.path tn = false := by
  induction files with
  | nil => simp [findMatchIdx]
  | cons f rest ih =>
    cases hf : fileMatches f.path tn with
    | true =>
      simp only [findMatchIdx, hf]
      constructor
      · intro h; exact absurd h (by simp)
      · intro h
        have := h f (by simp)
        rw [hf] at this
        cases this
    | false =>
      simp only [findMatchIdx, hf, Option.map_eq_none', ih,
        List.mem_cons]
      constructor
      · rintro hr g (rfl | hg)
        · exact hf
        · exact hr g hg
      · intro hr g hg
        exact hr g (Or.inr hg)

theorem findMatchIdx_eq_some {tn : String} {files : List EngineFile} {i : Nat}
    (h : findMatchIdx tn files = some i) :
    ∃ f, files.get? i = some f ∧ fileMatches f.path tn = true ∧
      ∀ j g, j < i → files.get? j = some g → fileMatches g.path tn = false := by
  induction files generalizing i with
  | nil => simp [findMatchIdx] at h
  | cons f rest ih =>
    cases hf : fileMatches f.path tn with
    | true =>
      simp only [findMatchIdx, hf, Option.some.injEq] at h
      subst h
      exact ⟨f, rfl, hf, fun j g hj => by omega⟩
    | false =>
      simp only [findMatchIdx, hf, Option.map_eq_some'] at h
      obtain ⟨i0, hi0, rfl⟩ := h
      obtain ⟨g, hg, hgm, hmin⟩ := ih hi0
      refine ⟨g, by simpa using hg, hgm, ?_⟩
      rintro (_ | j) g0 hj hg0
      · simp only [List.get?_cons_zero, Option.some.injEq] at hg0
        subst hg0
        exact hf
      · exact hmin j g0 (by omega) (by simpa using hg0)

theorem find_file_index_lt {files : List EngineFile} {target : String} {i : Nat}
    (h : SessionContext.find_file_index files target = some i) : i < files.length := by
  obtain ⟨f, hf, -, -⟩ := findMatchIdx_eq_some h
  exact List.get?_eq_some.mp hf |>.1

/-! ## Session initialization (`SessionContext._init_torrent`)

The resolver is the abstract tracker oracle
(`tracker_client.get_torrent_info`, keyed by repo id and revision as the
call sites in `p2p_batch.py` supply them); `ef` is the engine's answer to
the bounded metadata wait: `some files` when metadata resolved within the
bound, `none` when the 8-second wait timed out. -/

def SessionContext.init_torrent (resolver : String → String → Option TorrentMeta)
    (ef : Option (List EngineFile)) (s : SessionState) : SessionState × Bool :=
  if s.handle then (s, true)
  else
    let r1 := resolver s.repo_id s.revision
    let queried : Option TorrentMeta × SessionState :=
      match r1 with
      | some m =>
        (some m, { s with log := s.log ++ [Action.queryResolver s.repo_id s.revision] })
      | none =>
        if 40 ≤ s.revision.length then
          (resolver s.repo_id "main",
           { s with log := s.log ++ [Action.queryResolver s.repo_id s.revision,
                                     .queryResolver s.repo_id "main"] })
        else
          (none, { s with log := s.log ++ [Action.queryResolver s.repo_id s.revision] })
    match queried with
    | (none, s1) => ({ s1 with is_valid := false }, false)
    | (some m, s1) =>
      match m.magnet_link with
      | none => ({ s1 with is_valid := false }, false)
      | some _ =>
        let s2 := { s1 with handle := true, log := s1.log ++ [Action.addTorrent] }
        match ef with
        | none => (s2, false)
        | some files =>
          ({ s2 with
              torrent_info_obj := some files,
              priorities := List.replicate files.length 0,
              log := s2.log ++ [Action.prioritizeAll files.length, Action.resume] }, true)

/-! ## File registration (`SessionContext.download_file`) -/

/-- The outcome of the locked section of `download_file`: either an
immediate `False` (`fail`), or the caller proceeds to block on the
completion event `eid` for `dur` seconds (`wait dur eid`); the eventual
boolean is then `True` exactly when the event is signalled within `dur`. -/
inductive DlRes where
  | fail : DlRes
  | wait (dur : Nat) (eid : Nat) : DlRes
deriving DecidableEq

/-- The wait duration of a result, `none` for an immediate failure. -/
def DlRes.dur : DlRes → Option Nat
  | .fail => none
  | .wait d _ => some d

def SessionContext.download_file (resolver : String → String → Option TorrentMeta)
    (ef : Option (List EngineFile)) (f dest : String) (s : SessionState) :
    SessionState × DlRes :=
  if !s.is_valid then (s, .fail)
  else
    let ini := SessionContext.init_torrent resolver ef s
    let s := ini.1
    if !ini.2 && !s.is_valid then (s, .fail)
    else
      match lookupEvent s f with
      | some eid => (s, .wait s.timeout eid)
      | none =>
        let eid := s.nextEventId
        let s := { s with
          file_events := s.file_events ++ [(f, eid)],
          file_destinations := s.file_destinations ++ [(f, dest)],
          nextEventId := eid + 1 }
        match s.torrent_info_obj with
        | some files =>
          match SessionContext.find_file_index files f with
          | some i =>
            ({ s with priorities := s.priorities.set i 1,
                      log := s.log ++ [Action.rename i dest, Action.setPriority i 1] },
             .wait s.timeout eid)
          | none => (s, .fail)
        | none => (s, .wait s.timeout eid)

/-! ## Monitor loop (`SessionContext._monitor_loop`), one iteration -/

/-- What the engine reports during one monitor tick. -/
structure EngineReport where
  hasError : Bool
  metaFiles : Option (List EngineFile)
  progress : Nat → Nat

/-- Processing of one pending filename inside the monitor iteration's
`for filename in list(pending_files)` loop (lines 503-535): resolve its
index, belatedly rename+prioritize if its priority is still 0, then signal
completion when the reported bytes equal the (nonzero) file size. -/
def monitorFileStep (rep : EngineReport) (files : List EngineFile)
    (s : SessionState) (f : String) : SessionState :=
  match SessionContext.find_file_index files f with
  | none => s
  | some i =>
    let dest := (lookupDest s f).getD ""
    let s1 :=
      match s.priorities.getD i 0 with
      | 0 => { s with priorities := s.priorities.set i 1,
                      log := s.log ++ [Action.rename i dest, Action.setPriority i 1] }
      | _ + 1 => s
    let size := (files.getD i default).size
    if rep.progress i == size && size != 0 then
      -- `file_events` is untouched by the belated rename above, so reading
      -- the event on `s` is the same dictionary access as the source's
      -- `self.file_events[filename]`.
      match lookupEvent s f with
      | some e =>
        { s1 with eventsSet := s1.eventsSet ++ [e],
                  priorities := s1.priorities.set i 0,
                  log := s1.log ++ [Action.setEvent e, Action.setPriority i 0, Action.saveResume] }
      | none => s1
    else s1

/-- The filenames whose completion event is not yet signalled
(`pending_files`, line 486). -/
def pendingOf (s : SessionState) : List String :=
  (s.file_events.filter (fun p => !(s.eventsSet.contains p.2))).map (·.1)

/-- One iteration of the monitor loop body, lines 437-535 (the periodic
fastresume snapshot is engine-side and not modelled): stop if the session
is invalid or the handle gone; invalidate on an engine-reported error;
otherwise, if any request is pending, belatedly install metadata when it
has arrived, and run the per-file progress checks. -/
def SessionContext.monitor_step (rep : EngineReport) (s : SessionState) :
    SessionState :=
  if !(s.is_valid && s.handle) then s
  else if rep.hasError then { s with is_valid := false }
  else
    let pending := pendingOf s
    if pending.isEmpty then s
    else
      let s :=
        match s.torrent_info_obj with
        | some _ => s
        | none =>
          match rep.metaFiles with
          | some files =>
            { s with torrent_info_obj := some files,
                     priorities := List.replicate files.length 0,
                     log := s.log ++ [Action.prioritizeAll files.length] }
          | none => s
      match s.torrent_info_obj with
      | none => s
      | some files => pending.foldl (monitorFileStep rep files) s

/-! ## Seeding map (`SessionContext.map_all_files_for_seeding`) -/

/-- The padding-entry test of lines 391:
`target_norm.startswith('.pad/') or '/.pad/' in target_norm`. -/
def isPadEntry (p : String) : Bool :=
  startsWithChars p.data ".pad/".data || containsChars "/.pad/".data p.data

/-- `os.path.join(pad_dir, f"pad_{file_index}_{file_size}")` with
`pad_dir = os.path.join(self.temp_dir, ".pad_files")`. -/
def padFilePath (tempDir : String) (i size : Nat) : String :=
  tempDir ++ "/.pad_files/pad_" ++ Nat.repr i ++ "_" ++ Nat.repr size

/-- Engine/filesystem effects of mapping one file for seeding (loop body,
lines 380-416): `cache` is the `try_to_load_from_cache` oracle and
`padEx` the `os.path.exists` oracle for pad files. -/
def seedFileActions (cache : String → Option String) (padEx : String → Bool)
    (tempDir : String) (i : Nat) (f : EngineFile) : List Action :=
  let ltPath := normalizePath f.path
  let targetNorm := (stripTopDir ltPath).getD ltPath
  if isPadEntry targetNorm then
    let pp := padFilePath tempDir i f.size
    (if padEx pp then [] else [Action.createPad pp (List.replicate f.size 0)]) ++
      [Action.rename i pp]
  else
    match cache targetNorm with
    | some lp => [Action.rename i lp]
    | none => []

def seedMapActionsAux (cache : String → Option String) (padEx : String → Bool)
    (tempDir : String) : Nat → List EngineFile → List Action
  | _, [] => []
  | i, f :: rest =>
    seedFileActions cache padEx tempDir i f ++
      seedMapActionsAux cache padEx tempDir (i + 1) rest

/-- `SessionContext.map_all_files_for_seeding` (lines 362-427): requires
an initialized handle with metadata, maps every file (padding entries to
freshly materialized zero-filled files, real entries to their cache blob
when found), then resumes the transfer. -/
def SessionContext.map_all_files_for_seeding (cache : String → Option String)
    (padEx : String → Bool) (s : SessionState) : SessionState × Bool :=
  if !s.handle then (s, false)
  else
    match s.torrent_info_obj with
    | none => (s, false)
    | some files =>
      ({ s with log := s.log ++
          seedMapActionsAux cache padEx s.temp_dir 0 files ++ [Action.resume] }, true)

/-! ## Coordinator (`P2PBatchManager`)

The whole lookup-or-create section of `register_request` /
`register_seeding_task` runs under the manager-wide `_lock`, so concurrent
executions of it are serialized; it is therefore modelled as a sequential
atomic operation.  (The later, unlocked `_init_torrent` race of the
seeding path is modelled separately by the interleaving system below.) -/

structure Manager where
  sessions : List ((String × String) × SessionState)
deriving DecidableEq

def Manager.lookup (m : Manager) (k : String × String) : Option SessionState :=
  (m.sessions.find? (fun p => p.1 == k)).map (·.2)

/-- Write back the (mutated) session of key `k`. -/
def Manager.withSession (m : Manager) (k : String × String) (s : SessionState) :
    Manager :=
  ⟨m.sessions.map (fun p => if p.1 == k then (p.1, s) else p)⟩

/-- `P2PBatchManager.register_request` (lines 86-126): look up or create
the session for `(repo_id, revision)` under the manager lock, then
delegate to `download_file`. -/
def P2PBatchManager.register_request (m : Manager) (repo rev f dest : String)
    (timeout : Nat) (resolver : String → String → Option TorrentMeta)
    (ef : Option (List EngineFile)) : Manager × DlRes :=
  let k := (repo, rev)
  let looked :=
    match m.lookup k with
    | some s => (m, s)
    | none =>
      let s := SessionContext.new repo rev timeout false
      (⟨m.sessions ++ [(k, s)]⟩, s)
  let dl := SessionContext.download_file resolver ef f dest looked.2
  (looked.1.withSession k dl.1, dl.2)

/-- `P2PBatchManager.register_seeding_task` (lines 52-84): look up or
create the session for `(repo_id, revision)` under the manager lock
(created with the short 30-second initialization timeout and seeder mode
on); fail fast on an invalid session, then initialize the transfer and
map every file for seeding.  The raw `torrent_data` bytes only shape the
engine's add-parameters and are not modelled, as in `init_torrent`.
Python mutates the stored `SessionContext` in place; here the mutated
session value is written back to the map, which never changes its keys. -/
def P2PBatchManager.register_seeding_task (m : Manager) (repo rev : String)
    (resolver : String → String → Option TorrentMeta)
    (ef : Option (List EngineFile)) (cache : String → Option String)
    (padEx : String → Bool) : Manager × Bool :=
  let k := (repo, rev)
  let looked :=
    match m.lookup k with
    | some s => (m, s)
    | none =>
      let s := SessionContext.new repo rev 30 true
      (⟨m.sessions ++ [(k, s)]⟩, s)
  if !looked.2.is_valid then (looked.1, false)
  else
    let ini := SessionContext.init_torrent resolver ef looked.2
    if !ini.2 then (looked.1.withSession k ini.1, false)
    else
      let mp := SessionContext.map_all_files_for_seeding cache padEx ini.1
      (looked.1.withSession k mp.1, mp.2)

/-! ## List helpers -/

theorem get?_set_self {α : Type _} (l : List α) (i : Nat) (a : α)
    (h : i < l.length) : (l.set i a).get? i = some a := by
  induction l generalizing i with
  | nil => simp at h
  | cons b t ih =>
    cases i with
    | zero => rfl
    | succ j => simpa using ih j (by simpa using h)

theorem get?_set_other {α : Type _} (l : List α) (i j : Nat) (a : α)
    (h : i ≠ j) : (l.set i a).get? j = l.get? j := by
  induction l generalizing i j with
  | nil => rfl
  | cons b t ih =>
    cases i with
    | zero =>
      cases j with
      | zero => exact absurd rfl h
      | succ j0 => rfl
    | succ i0 =>
      cases j with
      | zero => rfl
      | succ j0 => simpa using ih i0 j0 (by omega)

theorem getD_replicate_zero (n i : Nat) :
    (List.replicate n (0 : Nat)).getD i 0 = 0 := by
  induction n generalizing i with
  | zero => cases i <;> rfl
  | succ m ih =>
    cases i with
    | zero => rfl
    | succ j => exact ih j

theorem getD_set_self_of_lt {l : List Nat} {i : Nat} {a : Nat}
    (h : i < l.length) : (l.set i a).getD i 0 = a := by
  have h1 := get?_set_self l i a h
  rw [List.get?_eq_getElem?] at h1
  simp [List.getD_eq_getD_get?, h1]

/-! ## Monitor-loop lemmas -/

/-- The completion condition the monitor evaluates for one pending
filename: its index resolves and the engine-reported bytes equal the
file's nonzero total size. -/
def complCondB (rep : EngineReport) (files : List EngineFile) (f : String) : Bool :=
  match SessionContext.find_file_index files f with
  | none => false
  | some i =>
    rep.progress i == (files.getD i default).size &&
      (files.getD i default).size != 0

theorem monitorFileStep_file_events (rep : EngineReport) (files : List EngineFile)
    (s : SessionState) (f : String) :
    (monitorFileStep rep files s f).file_events = s.file_events := by
  unfold monitorFileStep
  cases SessionContext.find_file_index files f with
  | none => rfl
  | some i =>
    dsimp only
    cases s.priorities.getD i 0 <;>
      · dsimp only
        split
        · split <;> rfl
        · rfl

theorem monitorFileStep_eventsSet (rep : EngineReport) (files : List EngineFile)
    (s : SessionState) (f : String) :
    (monitorFileStep rep files s f).eventsSet =
      if complCondB rep files f = true then
        match lookupEvent s f with
        | some e => s.eventsSet ++ [e]
        | none => s.eventsSet
      else s.eventsSet := by
  unfold monitorFileStep complCondB
  cases hfi : SessionContext.find_file_index files f with
  | none => rfl
  | some i =>
    dsimp only
    cases hpr : s.priorities.getD i 0 <;>
      cases hc : (rep.progress i == (files.getD i default).size &&
          (files.getD i default).size != 0) <;>
        simp only [hc, if_true, if_false, Bool.false_eq_true, Bool.true_eq_false] <;>
        cases hle : lookupEvent s f <;> rfl

theorem lookupEvent_of_file_events_eq {s s' : SessionState}
    (h : s'.file_events = s.file_events) (f : String) :
    lookupEvent s' f = lookupEvent s f := by
  simp [lookupEvent, h]

theorem mem_eventsSet_foldl (rep : EngineReport) (files : List EngineFile)
    (P : List String) (s : SessionState) (eid : Nat) :
    eid ∈ (P.foldl (monitorFileStep rep files) s).eventsSet ↔
      eid ∈ s.eventsSet ∨
        ∃ g ∈ P, lookupEvent s g = some eid ∧ complCondB rep files g = true := by
  induction P generalizing s with
  | nil => simp
  | cons g rest ih =>
    rw [List.foldl_cons, ih]
    have hle := lookupEvent_of_file_events_eq
      (monitorFileStep_file_events rep files s g)
    simp only [hle]
    rw [monitorFileStep_eventsSet]
    by_cases hc : complCondB rep files g = true
    · simp only [hc, if_true]
      cases hg : lookupEvent s g with
      | none =>
        simp only [List.mem_cons]
        constructor
        · rintro (h | ⟨x, hx, hl, hcx⟩)
          · exact Or.inl h
          · exact Or.inr ⟨x, Or.inr hx, hl, hcx⟩
        · rintro (h | ⟨x, (rfl | hx), hl, hcx⟩)
          · exact Or.inl h
          · rw [hg] at hl; cases hl
          · exact Or.inr ⟨x, hx, hl, hcx⟩
      | some e =>
        simp only [List.mem_append, List.mem_cons, List.not_mem_nil, or_false]
        constructor
        · rintro ((h | he) | ⟨x, hx, hl, hcx⟩)
          · exact Or.inl h
          · cases he
            exact Or.inr ⟨g, Or.inl rfl, hg, hc⟩
          · exact Or.inr ⟨x, Or.inr hx, hl, hcx⟩
        · rintro (h | ⟨x, (rfl | hx), hl, hcx⟩)
          · exact Or.inl (Or.inl h)
          · rw [hg] at hl
            cases hl
            exact Or.inl (Or.inr rfl)
          · exact Or.inr ⟨x, hx, hl, hcx⟩
    · simp only [hc, if_false, List.mem_cons]
      constructor
      · rintro (h | ⟨x, hx, hl, hcx⟩)
        · exact Or.inl h
        · exact Or.inr ⟨x, Or.inr hx, hl, hcx⟩
      · rintro (h | ⟨x, (rfl | hx), hl, hcx⟩)
        · exact Or.inl h
        · exact absurd hcx hc
        · exact Or.inr ⟨x, hx, hl, hcx⟩

theorem mem_pendingOf {s : SessionState} {f : String} {eid : Nat}
    (he : lookupEvent s f = some eid) (hn : eid ∉ s.eventsSet) :
    f ∈ pendingOf s := by
  unfold pendingOf
  unfold lookupEvent at he
  obtain ⟨p, hp, hpe⟩ := Option.map_eq_some'.mp he
  have hmem := List.mem_of_find?_eq_some hp
  have hp1 : p.1 = f := by simpa using List.find?_some hp
  refine List.mem_map.mpr ⟨p, List.mem_filter.mpr ⟨hmem, ?_⟩, hp1⟩
  rw [hpe]
  simp only [Bool.not_eq_true']
  cases hcon : s.eventsSet.contains eid
  · rfl
  · exact absurd (List.elem_iff.mp hcon) hn

theorem lookupEvent_inj {s : SessionState}
    (hnd : (s.file_events.map Prod.snd).Nodup) {f g : String} {eid : Nat}
    (hf : lookupEvent s f = some eid) (hg : lookupEvent s g = some eid) :
    f = g := by
  unfold lookupEvent at hf hg
  obtain ⟨p, hp, hpe⟩ := Option.map_eq_some'.mp hf
  obtain ⟨q, hq, hqe⟩ := Option.map_eq_some'.mp hg
  have hpm := List.mem_of_find?_eq_some hp
  have hqm := List.mem_of_find?_eq_some hq
  have hp1 : p.1 = f := by simpa using List.find?_some hp
  have hq1 : q.1 = g := by simpa using List.find?_some hq
  have hpq : p = q :=
    List.inj_on_of_nodup_map hnd hpm hqm (by rw [hpe, hqe])
  rw [← hp1, ← hq1, hpq]

theorem monitor_step_eq_foldl (rep : EngineReport) (s : SessionState)
    (files : List EngineFile) (hv : s.is_valid = true) (hh : s.handle = true)
    (he : rep.hasError = false) (hti : s.torrent_info_obj = some files)
    (hp : pendingOf s ≠ []) :
    SessionContext.monitor_step rep s =
      (pendingOf s).foldl (monitorFileStep rep files) s := by
  unfold SessionContext.monitor_step
  rw [hv, hh, he]
  simp only [Bool.and_self, Bool.not_true, Bool.false_eq_true, if_false]
  rw [if_neg (by simp [List.isEmpty_iff, hp])]
  rw [hti]
  dsimp only
  rw [hti]

/-! ## Registration lemmas -/

/-- Registering a filename that already has a completion event leaves the
session untouched and waits on the existing event. -/
theorem download_file_existing_event
    (resolver : String → String → Option TorrentMeta)
    (ef : Option (List EngineFile)) (s : SessionState) (f dest : String)
    (eid : Nat) (hv : s.is_valid = true) (hh : s.handle = true)
    (he : lookupEvent s f = some eid) :
    SessionContext.download_file resolver ef f dest s = (s, .wait s.timeout eid) := by
  simp [SessionContext.download_file, SessionContext.init_torrent, hv, hh, he]

/-- On a fresh session whose resolver has no data for the key (under both
the revision and the `"main"` alias), `download_file` fails and the
session is invalidated, having queried the resolver at most twice. -/
theorem download_file_resolver_miss
    (resolver : String → String → Option TorrentMeta)
    (ef : Option (List EngineFile)) (repo rev f dest : String) (t : Nat)
    (h1 : resolver repo rev = none) (h2 : resolver repo "main" = none) :
    SessionContext.download_file resolver ef f dest
        (SessionContext.new repo rev t false) =
      ({ SessionContext.new repo rev t false with
          is_valid := false,
          log :=
            if 40 ≤ rev.length then
              [Action.queryResolver repo rev, Action.queryResolver repo "main"]
            else [Action.queryResolver repo rev] }, .fail) := by
  by_cases hl : 40 ≤ rev.length <;>
    simp [SessionContext.download_file, SessionContext.init_torrent,
      SessionContext.new, h1, h2, hl]

/-- Initialization never changes the session's stored timeout. -/
theorem init_torrent_timeout (resolver : String → String → Option TorrentMeta)
    (ef : Option (List EngineFile)) (s : SessionState) :
    (SessionContext.init_torrent resolver ef s).1.timeout = s.timeout := by
  unfold SessionContext.init_torrent
  cases hsh : s.handle
  · cases hr1 : resolver s.repo_id s.revision
    · by_cases hlen : 40 ≤ s.revision.length
      · cases hr2 : resolver s.repo_id "main"
        · simp [hsh, hr1, hr2, hlen]
        · rename_i m
          cases hml : m.magnet_link
          · simp [hsh, hr1, hr2, hlen, hml]
          · cases ef <;> simp [hsh, hr1, hr2, hlen, hml]
      · simp [hsh, hr1, hlen]
    · rename_i m
      cases hml : m.magnet_link
      · simp [hsh, hr1, hml]
      · cases ef <;> simp [hsh, hr1, hml]
  · simp [hsh]

/-- Every blocking wait issued by `download_file` uses the session's
stored timeout. -/
theorem download_file_wait_dur (resolver : String → String → Option TorrentMeta)
    (ef : Option (List EngineFile)) (f dest : String) (s : SessionState)
    (dur eid : Nat)
    (h : (SessionContext.download_file resolver ef f dest s).2 = .wait dur eid) :
    dur = s.timeout := by
  have hto := init_torrent_timeout resolver ef s
  unfold SessionContext.download_file at h
  split at h
  · cases h
  · generalize hg : SessionContext.init_torrent resolver ef s = pr at h hto
    obtain ⟨s1, ok⟩ := pr
    dsimp only at h hto
    split at h
    · cases h
    · split at h
      · cases h
        exact hto
      · split at h
        · split at h
          · cases h
            exact hto
          · cases h
        · cases h
          exact hto

/-! ## Claim theorems -/

/-- Claim C7: file-index resolution returns an index exactly when the
transfer's path there equals the requested (normalized) path, either
verbatim or after stripping one top-level wrapper directory component
(that disjunction is `fileMatches`); it returns the first such index, and
`none` exactly when no path matches. -/
theorem c7_find_file_index_characterization (files : List EngineFile) (target : String) :
    (∀ i, SessionContext.find_file_index files target = some i →
      ∃ f, files.get? i = some f ∧
        fileMatches f.path (normalizePath target) = true ∧
        ∀ j g, j < i → files.get? j = some g →
          fileMatches g.path (normalizePath target) = false) ∧
    (SessionContext.find_file_index files target = none ↔
      ∀ f ∈ files, fileMatches f.path (normalizePath target) = false) :=
  ⟨fun _ h => findMatchIdx_eq_some h, findMatchIdx_eq_none⟩

/-- Witness for C7 at a concrete transfer: a wrapper-stripped match is
found at index 1 and reported with the match property. -/
theorem c7_witness :
    SessionContext.find_file_index
      [⟨"wrap/other.bin", 3⟩, ⟨"wrap/config.json", 5⟩] "config.json" = some 1 ∧
    (∃ f, [(⟨"wrap/other.bin", 3⟩ : EngineFile), ⟨"wrap/config.json", 5⟩].get? 1 = some f ∧
      fileMatches f.path (normalizePath "config.json") = true ∧
      ∀ j g, j < 1 →
        [(⟨"wrap/other.bin", 3⟩ : EngineFile), ⟨"wrap/config.json", 5⟩].get? j = some g →
        fileMatches g.path (normalizePath "config.json") = false) :=
  ⟨by decide,
   (c7_find_file_index_characterization
      [⟨"wrap/other.bin", 3⟩, ⟨"wrap/config.json", 5⟩] "config.json").1 1 (by decide)⟩

/-- Claim C9 (code bug): on a 200 response whose body carries the torrent
list under the `data` key — the shape the spec's resolver protocol, the
repository's own unit tests (`tests/unit/test_tracker.py`) and the
`p2p_batch.py` call sites all assume — the checked-in
`TrackerClient.get_torrent_info` returns `None`, because it reads the
response key `torrents` and never filters by revision; the spec-modelled
resolver returns the entry (and filters a multi-entry list by revision). -/
theorem c9_tracker_client_reads_wrong_response_key :
    TrackerClient.get_torrent_info
      ⟨200, [], [⟨"12345", "magnet:?xt=urn:btih:12345", "main"⟩]⟩ = none ∧
    TrackerClient.get_torrent_info_specModel
      ⟨200, [], [⟨"12345", "magnet:?xt=urn:btih:12345", "main"⟩]⟩ none =
      some ⟨"12345", "magnet:?xt=urn:btih:12345", "main"⟩ ∧
    TrackerClient.get_torrent_info_specModel
      ⟨200, [], [⟨"12345", "magnet:?xt=urn:btih:12345", "main"⟩,
                 ⟨"67890", "magnet:?xt=urn:btih:67890", "old_branch"⟩]⟩
      (some "old_branch") =
      some ⟨"67890", "magnet:?xt=urn:btih:67890", "old_branch"⟩ ∧
    TrackerClient.get_torrent_info ⟨404, [], []⟩ = none := by
  decide

/-- Claim C5: a second registration of an already-registered filename is
idempotent — the locked section leaves the session state entirely
unchanged (no new completion event, no rename, no priority change) and
the caller proceeds to wait on the event created by the first
registration. -/
theorem c5_second_registration_idempotent
    (resolver : String → String → Option TorrentMeta)
    (ef : Option (List EngineFile)) (s : SessionState) (f dest : String)
    (eid : Nat) (hv : s.is_valid = true) (hh : s.handle = true)
    (he : lookupEvent s f = some eid) :
    SessionContext.download_file resolver ef f dest s = (s, .wait s.timeout eid) :=
  download_file_existing_event resolver ef s f dest eid hv hh he

/-- Claim C2: for a tracked, still-pending `FileRequest` in a live session
(metadata resolved, no engine error), one monitor iteration signals its
completion event exactly when the engine-reported bytes for its resolved
file index equal that file's total size and that size is nonzero; a
request whose filename resolves to no index is never signalled. -/
theorem c2_completion_signal_iff_progress_full
    (rep : EngineReport) (s : SessionState) (files : List EngineFile)
    (f : String) (eid : Nat)
    (hv : s.is_valid = true) (hh : s.handle = true)
    (he : rep.hasError = false) (hti : s.torrent_info_obj = some files)
    (hev : lookupEvent s f = some eid) (hun : eid ∉ s.eventsSet)
    (hnd : (s.file_events.map Prod.snd).Nodup) :
    (∀ i, SessionContext.find_file_index files f = some i →
      (eid ∈ (SessionContext.monitor_step rep s).eventsSet ↔
        rep.progress i = (files.getD i default).size ∧
          (files.getD i default).size ≠ 0)) ∧
    (SessionContext.find_file_index files f = none →
      eid ∉ (SessionContext.monitor_step rep s).eventsSet) := by
  have hpend : f ∈ pendingOf s := mem_pendingOf hev hun
  have hpne : pendingOf s ≠ [] := by
    intro h
    rw [h] at hpend
    cases hpend
  rw [monitor_step_eq_foldl rep s files hv hh he hti hpne]
  have hmem := mem_eventsSet_foldl rep files (pendingOf s) s eid
  constructor
  · intro i hfi
    rw [hmem]
    constructor
    · rintro (h | ⟨g, hg, hl, hcx⟩)
      · exact absurd h hun
      · have hgf : g = f := lookupEvent_inj hnd hl hev
        subst hgf
        unfold complCondB at hcx
        rw [hfi] at hcx
        simpa using hcx
    · rintro ⟨h1, h2⟩
      refine Or.inr ⟨f, hpend, hev, ?_⟩
      unfold complCondB
      rw [hfi]
      simp only [Bool.and_eq_true, beq_iff_eq, bne_iff_ne]
      exact ⟨h1, h2⟩
  · intro hfi
    rw [hmem]
    rintro (h | ⟨g, hg, hl, hcx⟩)
    · exact hun h
    · have hgf : g = f := lookupEvent_inj hnd hl hev
      subst hgf
      unfold complCondB at hcx
      rw [hfi] at hcx
      cases hcx

def c2S : SessionState :=
  { SessionContext.new "org/model" "main" 300 false with
      handle := true,
      torrent_info_obj := some [⟨"wrap/model.bin", 4⟩],
      file_events := [("model.bin", 0)],
      file_destinations := [("model.bin", "/tmp/m")],
      priorities := [1] }

/-- Witness for C2 on a concrete pending request whose engine-reported
progress equals the nonzero file size. -/
theorem c2_witness :
    (c2S.is_valid = true ∧ c2S.handle = true ∧
      c2S.torrent_info_obj = some [⟨"wrap/model.bin", 4⟩] ∧
      lookupEvent c2S "model.bin" = some 0 ∧ (0 : Nat) ∉ c2S.eventsSet ∧
      (c2S.file_events.map Prod.snd).Nodup ∧
      SessionContext.find_file_index [⟨"wrap/model.bin", 4⟩] "model.bin" = some 0) ∧
    ((0 : Nat) ∈
        (SessionContext.monitor_step ⟨false, none, fun _ => 4⟩ c2S).eventsSet ↔
      (fun _ : Nat => 4) 0 =
          ([(⟨"wrap/model.bin", 4⟩ : EngineFile)].getD 0 default).size ∧
        ([(⟨"wrap/model.bin", 4⟩ : EngineFile)].getD 0 default).size ≠ 0) :=
  ⟨⟨rfl, rfl, rfl, by decide, by decide, by decide, by decide⟩,
   (c2_completion_signal_iff_progress_full ⟨false, none, fun _ => 4⟩ c2S
      [⟨"wrap/model.bin", 4⟩] "model.bin" 0 rfl rfl rfl rfl (by decide)
      (by decide) (by decide)).1 0 (by decide)⟩

/-- Claim C3: when the resolver has no data for a key — neither under the
revision nor under the `"main"` alias retry — the first `registerDownload`
returns failure and leaves the key's session `INVALID`; a subsequent
registration against the same key also fails, changing nothing (in
particular it performs no new resolver query: the whole manager state is
unchanged). -/
theorem c3_resolver_miss_fails_fast
    (resolver : String → String → Option TorrentMeta)
    (ef : Option (List EngineFile)) (repo rev f1 d1 f2 d2 : String)
    (t1 t2 : Nat)
    (h1 : resolver repo rev = none) (h2 : resolver repo "main" = none) :
    (P2PBatchManager.register_request ⟨[]⟩ repo rev f1 d1 t1 resolver ef).2 = .fail ∧
    ((P2PBatchManager.register_request ⟨[]⟩ repo rev f1 d1 t1 resolver ef).1.lookup
        (repo, rev)).map (·.is_valid) = some false ∧
    (P2PBatchManager.register_request
        (P2PBatchManager.register_request ⟨[]⟩ repo rev f1 d1 t1 resolver ef).1
        repo rev f2 d2 t2 resolver ef).2 = .fail ∧
    (P2PBatchManager.register_request
        (P2PBatchManager.register_request ⟨[]⟩ repo rev f1 d1 t1 resolver ef).1
        repo rev f2 d2 t2 resolver ef).1 =
      (P2PBatchManager.register_request ⟨[]⟩ repo rev f1 d1 t1 resolver ef).1 := by
  have hdl := download_file_resolver_miss resolver ef repo rev f1 d1 t1 h1 h2
  have hm1 : P2PBatchManager.register_request ⟨[]⟩ repo rev f1 d1 t1 resolver ef =
      (⟨[((repo, rev),
          { SessionContext.new repo rev t1 false with
              is_valid := false,
              log :=
                if 40 ≤ rev.length then
                  [Action.queryResolver repo rev, Action.queryResolver repo "main"]
                else [Action.queryResolver repo rev] })]⟩, .fail) := by
    simp [P2PBatchManager.register_request, Manager.lookup, Manager.withSession, hdl]
  rw [hm1]
  refine ⟨rfl, ?_, ?_, ?_⟩ <;>
    simp [P2PBatchManager.register_request, Manager.lookup, Manager.withSession,
      SessionContext.download_file]

/-- Witness for C3 with a resolver that knows nothing. -/
theorem c3_witness :
    ((fun _ _ => (none : Option TorrentMeta)) "org/model" "main" = none ∧
      (fun _ _ => (none : Option TorrentMeta)) "org/model" "main" = none) ∧
    (P2PBatchManager.register_request ⟨[]⟩ "org/model" "main" "a.bin" "/tmp/a" 300
        (fun _ _ => none) none).2 = .fail ∧
    ((P2PBatchManager.register_request ⟨[]⟩ "org/model" "main" "a.bin" "/tmp/a" 300
        (fun _ _ => none) none).1.lookup ("org/model", "main")).map (·.is_valid) =
      some false ∧
    (P2PBatchManager.register_request
        (P2PBatchManager.register_request ⟨[]⟩ "org/model" "main" "a.bin" "/tmp/a" 300
          (fun _ _ => none) none).1
        "org/model" "main" "b.bin" "/tmp/b" 60 (fun _ _ => none) none).2 = .fail ∧
    (P2PBatchManager.register_request
        (P2PBatchManager.register_request ⟨[]⟩ "org/model" "main" "a.bin" "/tmp/a" 300
          (fun _ _ => none) none).1
        "org/model" "main" "b.bin" "/tmp/b" 60 (fun _ _ => none) none).1 =
      (P2PBatchManager.register_request ⟨[]⟩ "org/model" "main" "a.bin" "/tmp/a" 300
        (fun _ _ => none) none).1 :=
  ⟨⟨rfl, rfl⟩,
   c3_resolver_miss_fails_fast (fun _ _ => none) none "org/model" "main"
     "a.bin" "/tmp/a" "b.bin" "/tmp/b" 300 60 rfl rfl⟩

/-- Claim C4: when the bounded metadata wait elapses during
initialization (the engine never reports metadata within the bound,
modelled by `ef = none`), the session is not marked invalid:
`_init_torrent` returns a not-ready `false`, the registration is still
queued as a pending `FileRequest`, the caller blocks with the wait
timeout of its own registration (which created this session), and one
later monitor iteration that sees metadata belatedly installs it and
maps the request (raising its priority, or signalling it outright when
the report already shows full progress). -/
theorem c4_metadata_timeout_not_fatal
    (resolver : String → String → Option TorrentMeta)
    (repo rev f dest mg : String) (t : Nat)
    (hres : resolver repo rev = some ⟨some mg⟩) :
    (SessionContext.init_torrent resolver none
        (SessionContext.new repo rev t false)).2 = false ∧
    (SessionContext.init_torrent resolver none
        (SessionContext.new repo rev t false)).1.is_valid = true ∧
    (SessionContext.download_file resolver none f dest
        (SessionContext.new repo rev t false)).2 = .wait t 0 ∧
    (SessionContext.download_file resolver none f dest
        (SessionContext.new repo rev t false)).1.is_valid = true ∧
    lookupEvent (SessionContext.download_file resolver none f dest
        (SessionContext.new repo rev t false)).1 f = some 0 ∧
    (∀ (files : List EngineFile) (i : Nat) (prog : Nat → Nat),
      SessionContext.find_file_index files f = some i →
      (SessionContext.monitor_step ⟨false, some files, prog⟩
          (SessionContext.download_file resolver none f dest
            (SessionContext.new repo rev t false)).1).torrent_info_obj =
        some files ∧
      ((SessionContext.monitor_step ⟨false, some files, prog⟩
          (SessionContext.download_file resolver none f dest
            (SessionContext.new repo rev t false)).1).priorities.get? i =
            some 1 ∨
        (0 : Nat) ∈
          (SessionContext.monitor_step ⟨false, some files, prog⟩
            (SessionContext.download_file resolver none f dest
              (SessionContext.new repo rev t false)).1).eventsSet)) := by
  have hini : SessionContext.init_torrent resolver none
      (SessionContext.new repo rev t false) =
      ({ SessionContext.new repo rev t false with
          handle := true,
          log := [Action.queryResolver repo rev, Action.addTorrent] }, false) := by
    simp [SessionContext.init_torrent, SessionContext.new, hres]
  have hdl : SessionContext.download_file resolver none f dest
      (SessionContext.new repo rev t false) =
      ({ SessionContext.new repo rev t false with
          handle := true,
          file_events := [(f, 0)],
          file_destinations := [(f, dest)],
          nextEventId := 1,
          log := [Action.queryResolver repo rev, Action.addTorrent] },
        .wait t 0) := by
    simp [SessionContext.download_file, SessionContext.init_torrent,
      SessionContext.new, hres, lookupEvent]
  refine ⟨by rw [hini], by rw [hini]; rfl, by rw [hdl], by rw [hdl]; rfl, ?_, ?_⟩
  · rw [hdl]
    simp [lookupEvent]
  · intro files i prog hfi
    have hlen := find_file_index_lt hfi
    rw [hdl]
    dsimp only
    have hms : SessionContext.monitor_step ⟨false, some files, prog⟩
        ({ SessionContext.new repo rev t false with
            handle := true,
            file_events := [(f, 0)],
            file_destinations := [(f, dest)],
            nextEventId := 1,
            log := [Action.queryResolver repo rev, Action.addTorrent] }) =
        monitorFileStep ⟨false, some files, prog⟩ files
          ({ SessionContext.new repo rev t false with
              handle := true,
              torrent_info_obj := some files,
              priorities := List.replicate files.length 0,
              file_events := [(f, 0)],
              file_destinations := [(f, dest)],
              nextEventId := 1,
              log := [Action.queryResolver repo rev, Action.addTorrent,
                      Action.prioritizeAll files.length] }) f := by
      unfold SessionContext.monitor_step
      simp [SessionContext.new, pendingOf]
    rw [hms]
    unfold monitorFileStep
    rw [hfi]
    dsimp only
    rw [getD_replicate_zero]
    dsimp only
    split
    · simp [lookupEvent, SessionContext.new]
    · refine ⟨rfl, Or.inl ?_⟩
      exact get?_set_self _ i 1 (by simpa using hlen)

/-- Witness for C4 with a concrete resolver that knows the key but an
engine that never reports metadata within the bound. -/
theorem c4_witness :
    ((fun _ _ => some (⟨some "m"⟩ : TorrentMeta)) "org/model" "main" =
        some (⟨some "m"⟩ : TorrentMeta)) ∧
    (SessionContext.init_torrent (fun _ _ => some ⟨some "m"⟩) none
        (SessionContext.new "org/model" "main" 300 false)).2 = false ∧
    (SessionContext.init_torrent (fun _ _ => some ⟨some "m"⟩) none
        (SessionContext.new "org/model" "main" 300 false)).1.is_valid = true ∧
    (SessionContext.download_file (fun _ _ => some ⟨some "m"⟩) none "a.bin" "/tmp/a"
        (SessionContext.new "org/model" "main" 300 false)).2 = .wait 300 0 ∧
    lookupEvent (SessionContext.download_file (fun _ _ => some ⟨some "m"⟩) none
        "a.bin" "/tmp/a" (SessionContext.new "org/model" "main" 300 false)).1
      "a.bin" = some 0 :=
  ⟨rfl,
   (c4_metadata_timeout_not_fatal (fun _ _ => some ⟨some "m"⟩) "org/model" "main"
      "a.bin" "/tmp/a" "m" 300 rfl).1,
   (c4_metadata_timeout_not_fatal (fun _ _ => some ⟨some "m"⟩) "org/model" "main"
      "a.bin" "/tmp/a" "m" 300 rfl).2.1,
   (c4_metadata_timeout_not_fatal (fun _ _ => some ⟨some "m"⟩) "org/model" "main"
      "a.bin" "/tmp/a" "m" 300 rfl).2.2.1,
   (c4_metadata_timeout_not_fatal (fun _ _ => some ⟨some "m"⟩) "org/model" "main"
      "a.bin" "/tmp/a" "m" 300 rfl).2.2.2.2.1⟩

/-- Claim C10: when metadata is fully resolved but a requested filename
matches no file index, the first `downloadFile` call returns failure
immediately — yet the `FileRequest` it created stays in the session's
pending maps; every later call for the same filename therefore skips the
not-found check and blocks for the full session wait timeout, and the
monitor loop never signals the request (so that wait can only time out). -/
theorem c10_unmatched_request_lingers
    (resolver : String → String → Option TorrentMeta)
    (ef : Option (List EngineFile)) (s : SessionState)
    (files : List EngineFile) (f d1 d2 : String)
    (hv : s.is_valid = true) (hh : s.handle = true)
    (hti : s.torrent_info_obj = some files)
    (hnf : SessionContext.find_file_index files f = none)
    (hne : lookupEvent s f = none) (hnd2 : lookupDest s f = none)
    (hfr : ∀ p ∈ s.file_events, p.2 ≠ s.nextEventId)
    (hfs : s.nextEventId ∉ s.eventsSet) :
    (SessionContext.download_file resolver ef f d1 s).2 = .fail ∧
    lookupEvent (SessionContext.download_file resolver ef f d1 s).1 f =
      some s.nextEventId ∧
    lookupDest (SessionContext.download_file resolver ef f d1 s).1 f = some d1 ∧
    SessionContext.download_file resolver ef f d2
        (SessionContext.download_file resolver ef f d1 s).1 =
      ((SessionContext.download_file resolver ef f d1 s).1,
        .wait s.timeout s.nextEventId) ∧
    (∀ rep : EngineReport, rep.hasError = false →
      s.nextEventId ∉
        (SessionContext.monitor_step rep
          (SessionContext.download_file resolver ef f d1 s).1).eventsSet) := by
  have hfen : s.file_events.find? (fun p => p.1 == f) = none :=
    Option.map_eq_none'.mp hne
  have hfdn : s.file_destinations.find? (fun p => p.1 == f) = none :=
    Option.map_eq_none'.mp hnd2
  have hdl : SessionContext.download_file resolver ef f d1 s =
      ({ s with file_events := s.file_events ++ [(f, s.nextEventId)],
                file_destinations := s.file_destinations ++ [(f, d1)],
                nextEventId := s.nextEventId + 1 }, .fail) := by
    simp [SessionContext.download_file, SessionContext.init_torrent, hv, hh,
      hne, hti, hnf]
  rw [hdl]
  have hlu : lookupEvent
      { s with file_events := s.file_events ++ [(f, s.nextEventId)],
               file_destinations := s.file_destinations ++ [(f, d1)],
               nextEventId := s.nextEventId + 1 } f = some s.nextEventId := by
    unfold lookupEvent
    dsimp only
    rw [List.find?_append, hfen]
    simp
  have hld : lookupDest
      { s with file_events := s.file_events ++ [(f, s.nextEventId)],
               file_destinations := s.file_destinations ++ [(f, d1)],
               nextEventId := s.nextEventId + 1 } f = some d1 := by
    unfold lookupDest
    dsimp only
    rw [List.find?_append, hfdn]
    simp
  refine ⟨rfl, hlu, hld, ?_, ?_⟩
  · exact download_file_existing_event resolver ef _ f d2 s.nextEventId hv hh hlu
  · intro rep herr
    dsimp only
    have hpend := mem_pendingOf hlu hfs
    have hpne : pendingOf
        { s with file_events := s.file_events ++ [(f, s.nextEventId)],
                 file_destinations := s.file_destinations ++ [(f, d1)],
                 nextEventId := s.nextEventId + 1 } ≠ [] := by
      intro h
      rw [h] at hpend
      cases hpend
    rw [monitor_step_eq_foldl rep
        { s with file_events := s.file_events ++ [(f, s.nextEventId)],
                 file_destinations := s.file_destinations ++ [(f, d1)],
                 nextEventId := s.nextEventId + 1 } files hv hh herr hti hpne]
    rw [mem_eventsSet_foldl]
    rintro (h | ⟨g, hg, hl, hcx⟩)
    · exact hfs h
    · unfold lookupEvent at hl
      obtain ⟨p, hp, hpe⟩ := Option.map_eq_some'.mp hl
      have hpm := List.mem_of_find?_eq_some hp
      have hp1 : p.1 = g := by simpa using List.find?_some hp
      dsimp only at hpm
      rcases List.mem_append.mp hpm with hmem | hmem
      · exact hfr p hmem hpe
      · have hpf : p = (f, s.nextEventId) := by simpa using hmem
        have hgf : g = f := by rw [← hp1, hpf]
        rw [hgf] at hcx
        unfold complCondB at hcx
        rw [hnf] at hcx
        cases hcx

def c10S : SessionState :=
  { SessionContext.new "org/model" "main" 120 false with
      handle := true, torrent_info_obj := some [⟨"wrap/present.bin", 9⟩] }

/-- Witness for C10: a fresh live session whose metadata does not contain
the requested filename. -/
theorem c10_witness :
    (c10S.is_valid = true ∧ c10S.handle = true ∧
      c10S.torrent_info_obj = some [⟨"wrap/present.bin", 9⟩] ∧
      SessionContext.find_file_index [⟨"wrap/present.bin", 9⟩] "missing.bin" = none ∧
      lookupEvent c10S "missing.bin" = none ∧ lookupDest c10S "missing.bin" = none ∧
      (∀ p ∈ c10S.file_events, p.2 ≠ c10S.nextEventId) ∧
      c10S.nextEventId ∉ c10S.eventsSet) ∧
    ((SessionContext.download_file (fun _ _ => none) none "missing.bin" "/tmp/x" c10S).2 =
        .fail ∧
      lookupEvent (SessionContext.download_file (fun _ _ => none) none "missing.bin"
          "/tmp/x" c10S).1 "missing.bin" = some c10S.nextEventId ∧
      lookupDest (SessionContext.download_file (fun _ _ => none) none "missing.bin"
          "/tmp/x" c10S).1 "missing.bin" = some "/tmp/x" ∧
      SessionContext.download_file (fun _ _ => none) none "missing.bin" "/tmp/y"
          (SessionContext.download_file (fun _ _ => none) none "missing.bin"
            "/tmp/x" c10S).1 =
        ((SessionContext.download_file (fun _ _ => none) none "missing.bin"
            "/tmp/x" c10S).1, .wait c10S.timeout c10S.nextEventId) ∧
      (∀ rep : EngineReport, rep.hasError = false →
        c10S.nextEventId ∉
          (SessionContext.monitor_step rep
            (SessionContext.download_file (fun _ _ => none) none "missing.bin"
              "/tmp/x" c10S).1).eventsSet)) :=
  ⟨⟨rfl, rfl, rfl, by decide, by decide, by decide, by decide, by decide⟩,
   c10_unmatched_request_lingers (fun _ _ => none) none c10S
     [⟨"wrap/present.bin", 9⟩] "missing.bin" "/tmp/x" "/tmp/y" rfl rfl rfl
     (by decide) (by decide) (by decide) (by decide) (by decide)⟩

def c5S : SessionState :=
  { SessionContext.new "org/model" "main" 300 false with
      handle := true, file_events := [("config.json", 0)],
      file_destinations := [("config.json", "/tmp/c0")] }

/-- Witness for C5 at a concrete session holding one registered file. -/
theorem c5_witness :
    (c5S.is_valid = true ∧ c5S.handle = true ∧
      lookupEvent c5S "config.json" = some 0) ∧
    SessionContext.download_file (fun _ _ => none) none "config.json" "/tmp/c1" c5S =
      (c5S, .wait 300 0) :=
  ⟨⟨rfl, rfl, by decide⟩,
   c5_second_registration_idempotent (fun _ _ => none) none c5S "config.json"
     "/tmp/c1" 0 rfl rfl (by decide)⟩

/-- Counterexample to C6 as stated: a second `register_request` for the
same key, issued with caller timeout 5 against a session created with
timeout 300, blocks for 300 seconds — not for its own caller-supplied 5.
(The wait always uses `self.timeout`, fixed in `SessionContext.__init__`.) -/
theorem c6_counterexample :
    (P2PBatchManager.register_request
        (P2PBatchManager.register_request ⟨[]⟩ "org/model" "main" "a.bin" "/tmp/a"
          300 (fun _ _ => some ⟨some "m"⟩) none).1
        "org/model" "main" "b.bin" "/tmp/b" 5 (fun _ _ => some ⟨some "m"⟩) none).2 =
      DlRes.wait 300 1 ∧ (300 : Nat) ≠ 5 := by
  constructor
  · decide
  · decide

/-- Claim C6 (amended): after releasing the session lock the caller
blocks on the completion event for the Session's stored timeout — the
duration fixed when the Session was created — which coincides with this
caller's supplied timeout exactly when this registration created the
Session (fresh key); for a pre-existing session the creator's timeout
governs, not the current caller's. -/
theorem c6_wait_uses_session_creation_timeout
    (m : Manager) (repo rev f dest : String) (t : Nat)
    (resolver : String → String → Option TorrentMeta)
    (ef : Option (List EngineFile)) (dur eid : Nat)
    (h : (P2PBatchManager.register_request m repo rev f dest t resolver ef).2 =
      .wait dur eid) :
    dur = ((m.lookup (repo, rev)).getD (SessionContext.new repo rev t false)).timeout ∧
    (m.lookup (repo, rev) = none → dur = t) := by
  unfold P2PBatchManager.register_request at h
  dsimp only at h
  cases hlk : m.lookup (repo, rev) with
  | some s0 =>
    rw [hlk] at h
    dsimp only at h
    have hd := download_file_wait_dur resolver ef f dest s0 dur eid h
    exact ⟨hd, fun hc => by cases hc⟩
  | none =>
    rw [hlk] at h
    dsimp only at h
    have hd := download_file_wait_dur resolver ef f dest
      (SessionContext.new repo rev t false) dur eid h
    exact ⟨hd, fun _ => hd⟩

/-- Witness for C6 (amended) at a fresh key: the wait equals the stored
(= creating caller's) timeout. -/
theorem c6_witness :
    (P2PBatchManager.register_request ⟨[]⟩ "org/model" "main" "a.bin" "/tmp/a" 300
        (fun _ _ => some ⟨some "m"⟩) none).2 = DlRes.wait 300 0 ∧
    ((300 : Nat) =
        (((⟨[]⟩ : Manager).lookup ("org/model", "main")).getD
          (SessionContext.new "org/model" "main" 300 false)).timeout ∧
      ((⟨[]⟩ : Manager).lookup ("org/model", "main") = none → (300 : Nat) = 300)) :=
  ⟨by decide,
   c6_wait_uses_session_creation_timeout ⟨[]⟩ "org/model" "main" "a.bin" "/tmp/a"
     300 (fun _ _ => some ⟨some "m"⟩) none 300 0 (by decide)⟩

theorem seedMapActionsAux_mem (cache : String → Option String)
    (padEx : String → Bool) (td : String) (k j : Nat)
    (files : List EngineFile) (f : EngineFile) (a : Action)
    (hj : files.get? j = some f)
    (ha : a ∈ seedFileActions cache padEx td (k + j) f) :
    a ∈ seedMapActionsAux cache padEx td k files := by
  induction files generalizing k j with
  | nil => cases hj
  | cons g rest ih =>
    cases j with
    | zero =>
      simp only [List.get?_cons_zero, Option.some.injEq] at hj
      subst hj
      exact List.mem_append.mpr (Or.inl ha)
    | succ j0 =>
      have hj0 : rest.get? j0 = some f := by simpa using hj
      have ha0 : a ∈ seedFileActions cache padEx td (k + 1 + j0) f := by
        have : k + 1 + j0 = k + (j0 + 1) := by omega
        rw [this]
        exact ha
      exact List.mem_append.mpr (Or.inr (ih (k + 1) j0 hj0 ha0))

/-- Claim C8: during the seeding mapping, every transfer file that is a
synthetic padding entry gets a freshly materialized zero-filled local
file of exactly the entry's size (when absent on disk) and is renamed to
it, and the transfer is resumed afterwards (the resume is the last
engine action of the call, which returns success). -/
theorem c8_padding_materialized_and_resumed
    (cache : String → Option String) (padEx : String → Bool)
    (s : SessionState) (files : List EngineFile) (j : Nat) (f : EngineFile)
    (hh : s.handle = true) (hti : s.torrent_info_obj = some files)
    (hj : files.get? j = some f)
    (hpad : isPadEntry ((stripTopDir (normalizePath f.path)).getD
      (normalizePath f.path)) = true)
    (hex : padEx (padFilePath s.temp_dir j f.size) = false) :
    (SessionContext.map_all_files_for_seeding cache padEx s).2 = true ∧
    Action.createPad (padFilePath s.temp_dir j f.size)
        (List.replicate f.size 0) ∈
      (SessionContext.map_all_files_for_seeding cache padEx s).1.log ∧
    Action.rename j (padFilePath s.temp_dir j f.size) ∈
      (SessionContext.map_all_files_for_seeding cache padEx s).1.log ∧
    (SessionContext.map_all_files_for_seeding cache padEx s).1.log.getLast? =
      some Action.resume := by
  have hmap : SessionContext.map_all_files_for_seeding cache padEx s =
      ({ s with log := s.log ++
          seedMapActionsAux cache padEx s.temp_dir 0 files ++ [Action.resume] },
        true) := by
    simp [SessionContext.map_all_files_for_seeding, hh, hti]
  rw [hmap]
  have hacts : Action.createPad (padFilePath s.temp_dir j f.size)
        (List.replicate f.size 0) ∈ seedFileActions cache padEx s.temp_dir (0 + j) f ∧
      Action.rename j (padFilePath s.temp_dir j f.size) ∈
        seedFileActions cache padEx s.temp_dir (0 + j) f := by
    rw [Nat.zero_add]
    unfold seedFileActions
    dsimp only
    rw [hpad]
    simp [hex]
  refine ⟨rfl, ?_, ?_, ?_⟩
  · exact List.mem_append.mpr (Or.inl (List.mem_append.mpr (Or.inr
      (seedMapActionsAux_mem cache padEx s.temp_dir 0 j files f _ hj hacts.1))))
  · exact List.mem_append.mpr (Or.inl (List.mem_append.mpr (Or.inr
      (seedMapActionsAux_mem cache padEx s.temp_dir 0 j files f _ hj hacts.2))))
  · exact List.getLast?_concat _

def c8S : SessionState :=
  { SessionContext.new "org/model" "main" 30 true with
      handle := true,
      temp_dir := "/cache/p2p_root",
      torrent_info_obj := some [⟨"repo/.pad/0", 4096⟩] }

/-- Witness for C8 with a descriptor containing one padding entry of size
4096: a 4096-byte zero-filled pad file is created and mapped. -/
theorem c8_witness :
    (c8S.handle = true ∧
      c8S.torrent_info_obj = some [⟨"repo/.pad/0", 4096⟩] ∧
      [(⟨"repo/.pad/0", 4096⟩ : EngineFile)].get? 0 = some ⟨"repo/.pad/0", 4096⟩ ∧
      isPadEntry ((stripTopDir (normalizePath "repo/.pad/0")).getD
        (normalizePath "repo/.pad/0")) = true ∧
      (fun _ => false) (padFilePath c8S.temp_dir 0 4096) = false) ∧
    ((SessionContext.map_all_files_for_seeding (fun _ => none) (fun _ => false)
        c8S).2 = true ∧
      Action.createPad (padFilePath c8S.temp_dir 0 4096)
          (List.replicate 4096 0) ∈
        (SessionContext.map_all_files_for_seeding (fun _ => none) (fun _ => false)
          c8S).1.log ∧
      Action.rename 0 (padFilePath c8S.temp_dir 0 4096) ∈
        (SessionContext.map_all_files_for_seeding (fun _ => none) (fun _ => false)
          c8S).1.log ∧
      (SessionContext.map_all_files_for_seeding (fun _ => none) (fun _ => false)
        c8S).1.log.getLast? = some Action.resume) :=
  ⟨⟨rfl, rfl, rfl, by decide, rfl⟩,
   c8_padding_materialized_and_resumed (fun _ => none) (fun _ => false) c8S
     [⟨"repo/.pad/0", 4096⟩] 0 ⟨"repo/.pad/0", 4096⟩ rfl rfl rfl (by decide) rfl⟩

/-! ## Interleaving model of handle initialization

`download_file` runs `_init_torrent` while holding the Session's own lock
(the whole locked section of lines 290-325), whereas
`register_seeding_task` (line 78) calls `_init_torrent()` after releasing
the manager lock and without taking the Session lock.  The race-relevant
atomic steps of `_init_torrent` are the `self.handle is not None` check
(line 163) and the `self.handle = self.lt_session.add_torrent(params)`
assignment (line 239), separated by blocking I/O (the tracker query), so
a thread can be preempted between them.  A thread is its kind plus a
program counter:

* `dl` (download path): pc 0 acquire Session lock → pc 1 check handle →
  pc 2 create handle (reached only when the check saw none) →
  pc 3 release lock → pc 4 done;
* `seed` (seeding path, lockless): pc 0 check handle → pc 1 create
  handle → pc 2 done.

`created` counts engine `add_torrent` calls; a schedule is the list of
thread indices picked to take one atomic step each (a blocked or finished
thread simply does nothing when picked). -/

inductive TKind where
  | dl : TKind
  | seed : TKind
deriving DecidableEq

structure Thr where
  kind : TKind
  pc : Nat
deriving DecidableEq

structure Sys where
  lockHeld : Option Nat
  handle : Bool
  created : Nat
  threads : List Thr
deriving DecidableEq

def initStep (s : Sys) (i : Nat) : Sys :=
  match s.threads.get? i with
  | none => s
  | some t =>
    match t.kind, t.pc with
    | .dl, 0 =>
      match s.lockHeld with
      | none => { s with lockHeld := some i, threads := s.threads.set i ⟨.dl, 1⟩ }
      | some _ => s
    | .dl, 1 =>
      { s with threads := s.threads.set i ⟨.dl, if s.handle then 3 else 2⟩ }
    | .dl, 2 =>
      { s with handle := true, created := s.created + 1,
               threads := s.threads.set i ⟨.dl, 3⟩ }
    | .dl, 3 => { s with lockHeld := none, threads := s.threads.set i ⟨.dl, 4⟩ }
    | .seed, 0 =>
      { s with threads := s.threads.set i ⟨.seed, if s.handle then 2 else 1⟩ }
    | .seed, 1 =>
      { s with handle := true, created := s.created + 1,
               threads := s.threads.set i ⟨.seed, 2⟩ }
    | _, _ => s

def runSched (s : Sys) (sched : List Nat) : Sys := sched.foldl initStep s

def mkSys (kinds : List TKind) : Sys :=
  ⟨none, false, 0, kinds.map (fun k => ⟨k, 0⟩)⟩

/-- The inductive invariant of download-only systems: all threads are on
the locked path, the handle count mirrors the handle flag, any thread
between the check and the release holds the lock, and a thread about to
create the handle observed it absent. -/
def DlInv (s : Sys) : Prop :=
  (∀ i t, s.threads.get? i = some t → t.kind = TKind.dl) ∧
  ((s.handle = true → s.created = 1) ∧ (s.handle = false → s.created = 0)) ∧
  (∀ i t, s.threads.get? i = some t → (t.pc = 1 ∨ t.pc = 2 ∨ t.pc = 3) →
    s.lockHeld = some i) ∧
  (∀ i t, s.threads.get? i = some t → t.pc = 2 → s.handle = false)

theorem dlInv_initStep (s : Sys) (j : Nat) (h : DlInv s) : DlInv (initStep s j) := by
  obtain ⟨hk, ⟨hc1, hc0⟩, hlock, hpc2⟩ := h
  unfold initStep
  cases hget : s.threads.get? j with
  | none => exact ⟨hk, ⟨hc1, hc0⟩, hlock, hpc2⟩
  | some t =>
    have hlt : j < s.threads.length := List.get?_eq_some.mp hget |>.1
    have hkd : t.kind = TKind.dl := hk j t hget
    obtain ⟨kd, pc⟩ := t
    dsimp only at hkd
    subst hkd
    rcases pc with _ | _ | _ | _ | pc4
    · -- pc 0: try to acquire the lock
      cases hlk : s.lockHeld with
      | some w => exact ⟨hk, ⟨hc1, hc0⟩, hlock, hpc2⟩
      | none =>
        refine ⟨?_, ⟨hc1, hc0⟩, ?_, ?_⟩
        · intro i t' hget'
          by_cases hij : i = j
          · subst hij
            rw [get?_set_self _ _ _ hlt] at hget'
            cases hget'
            rfl
          · rw [get?_set_other _ _ _ _ (fun he => hij he.symm)] at hget'
            exact hk i t' hget'
        · intro i t' hget' hpcs
          by_cases hij : i = j
          · subst hij
            rfl
          · rw [get?_set_other _ _ _ _ (fun he => hij he.symm)] at hget'
            have := hlock i t' hget' hpcs
            rw [hlk] at this
            cases this
        · intro i t' hget' hpcs
          by_cases hij : i = j
          · subst hij
            rw [get?_set_self _ _ _ hlt] at hget'
            cases hget'
            cases hpcs
          · rw [get?_set_other _ _ _ _ (fun he => hij he.symm)] at hget'
            have := hlock i t' hget' (Or.inr (Or.inl hpcs))
            rw [hlk] at this
            cases this
    · -- pc 1: check the handle
      refine ⟨?_, ⟨hc1, hc0⟩, ?_, ?_⟩
      · intro i t' hget'
        by_cases hij : i = j
        · subst hij
          rw [get?_set_self _ _ _ hlt] at hget'
          cases hget'
          rfl
        · rw [get?_set_other _ _ _ _ (fun he => hij he.symm)] at hget'
          exact hk i t' hget'
      · intro i t' hget' hpcs
        by_cases hij : i = j
        · subst hij
          exact hlock _ ⟨TKind.dl, 1⟩ hget (Or.inl rfl)
        · rw [get?_set_other _ _ _ _ (fun he => hij he.symm)] at hget'
          exact hlock i t' hget' hpcs
      · intro i t' hget' hpcs
        by_cases hij : i = j
        · subst hij
          rw [get?_set_self _ _ _ hlt] at hget'
          cases hget'
          dsimp only at hpcs
          cases hhd : s.handle
          · rfl
          · rw [hhd] at hpcs
            cases hpcs
        · rw [get?_set_other _ _ _ _ (fun he => hij he.symm)] at hget'
          exact hpc2 i t' hget' hpcs
    · -- pc 2: create the handle
      have hhd : s.handle = false := hpc2 j ⟨TKind.dl, 2⟩ hget rfl
      have hcr : s.created = 0 := hc0 hhd
      refine ⟨?_, ⟨fun _ => by rw [hcr], fun hcontra => by cases hcontra⟩, ?_, ?_⟩
      · intro i t' hget'
        by_cases hij : i = j
        · subst hij
          rw [get?_set_self _ _ _ hlt] at hget'
          cases hget'
          rfl
        · rw [get?_set_other _ _ _ _ (fun he => hij he.symm)] at hget'
          exact hk i t' hget'
      · intro i t' hget' hpcs
        by_cases hij : i = j
        · subst hij
          exact hlock _ ⟨TKind.dl, 2⟩ hget (Or.inr (Or.inl rfl))
        · rw [get?_set_other _ _ _ _ (fun he => hij he.symm)] at hget'
          exact hlock i t' hget' hpcs
      · intro i t' hget' hpcs
        by_cases hij : i = j
        · subst hij
          rw [get?_set_self _ _ _ hlt] at hget'
          cases hget'
          cases hpcs
        · rw [get?_set_other _ _ _ _ (fun he => hij he.symm)] at hget'
          have h1 := hlock i t' hget' (Or.inr (Or.inl hpcs))
          have h2 := hlock j ⟨TKind.dl, 2⟩ hget (Or.inr (Or.inl rfl))
          rw [h2] at h1
          cases h1
          exact absurd rfl hij
    · -- pc 3: release the lock
      refine ⟨?_, ⟨hc1, hc0⟩, ?_, ?_⟩
      · intro i t' hget'
        by_cases hij : i = j
        · subst hij
          rw [get?_set_self _ _ _ hlt] at hget'
          cases hget'
          rfl
        · rw [get?_set_other _ _ _ _ (fun he => hij he.symm)] at hget'
          exact hk i t' hget'
      · intro i t' hget' hpcs
        by_cases hij : i = j
        · subst hij
          rw [get?_set_self _ _ _ hlt] at hget'
          cases hget'
          rcases hpcs with h4 | h4 | h4 <;> cases h4
        · rw [get?_set_other _ _ _ _ (fun he => hij he.symm)] at hget'
          have h1 := hlock i t' hget' hpcs
          have h2 := hlock j ⟨TKind.dl, 3⟩ hget (Or.inr (Or.inr rfl))
          rw [h2] at h1
          cases h1
          exact absurd rfl hij
      · intro i t' hget' hpcs
        by_cases hij : i = j
        · subst hij
          rw [get?_set_self _ _ _ hlt] at hget'
          cases hget'
          cases hpcs
        · rw [get?_set_other _ _ _ _ (fun he => hij he.symm)] at hget'
          exact hpc2 i t' hget' hpcs
    · -- pc ≥ 4: finished thread, no step
      exact ⟨hk, ⟨hc1, hc0⟩, hlock, hpc2⟩

theorem dlInv_runSched (s : Sys) (sched : List Nat) (h : DlInv s) :
    DlInv (runSched s sched) := by
  induction sched generalizing s with
  | nil => exact h
  | cons a rest ih => exact ih (initStep s a) (dlInv_initStep s a h)

theorem dlInv_mkSys (kinds : List TKind) (hk : ∀ k ∈ kinds, k = TKind.dl) :
    DlInv (mkSys kinds) := by
  refine ⟨?_, ⟨fun hcontra => Bool.noConfusion hcontra, fun _ => rfl⟩, ?_, ?_⟩
  · intro i t hget
    unfold mkSys at hget
    dsimp only at hget
    rw [List.get?_map] at hget
    cases hki : kinds.get? i with
    | none => rw [hki] at hget; cases hget
    | some k =>
      rw [hki] at hget
      cases hget
      exact hk k (List.get?_mem hki)
  · intro i t hget hpcs
    unfold mkSys at hget
    dsimp only at hget
    rw [List.get?_map] at hget
    cases hki : kinds.get? i with
    | none => rw [hki] at hget; cases hget
    | some k =>
      rw [hki] at hget
      cases hget
      rcases hpcs with h4 | h4 | h4 <;> cases h4
  · intro i t hget hpcs
    unfold mkSys at hget
    dsimp only at hget
    rw [List.get?_map] at hget
    cases hki : kinds.get? i with
    | none => rw [hki] at hget; cases hget
    | some k =>
      rw [hki] at hget
      cases hget
      cases hpcs

/-- In a system of download-path threads only, any interleaving creates at
most one engine transfer handle. -/
theorem dl_creates_at_most_one_handle (kinds : List TKind) (sched : List Nat)
    (hk : ∀ k ∈ kinds, k = TKind.dl) :
    (runSched (mkSys kinds) sched).created ≤ 1 := by
  obtain ⟨-, ⟨h1, h0⟩, -, -⟩ := dlInv_runSched (mkSys kinds) sched (dlInv_mkSys kinds hk)
  cases hh : (runSched (mkSys kinds) sched).handle
  · rw [h0 hh]
    exact Nat.zero_le 1
  · rw [h1 hh]

/-! ## Coordinator map: one session per key -/

/-- One registration call at the coordinator, through either entry
point: `register_request` (a download registration) or
`register_seeding_task` (a seeding registration). -/
inductive MgrOp where
  | download (repo rev filename dest : String) (timeout : Nat) : MgrOp
  | seeding (repo rev : String) : MgrOp
deriving DecidableEq

/-- The RepoKey a registration targets. -/
def MgrOp.key : MgrOp → String × String
  | .download repo rev _ _ _ => (repo, rev)
  | .seeding repo rev => (repo, rev)

def applyMgrOp (resolver : String → String → Option TorrentMeta)
    (ef : Option (List EngineFile)) (cache : String → Option String)
    (padEx : String → Bool) (m : Manager) : MgrOp → Manager
  | .download repo rev f d t =>
    (P2PBatchManager.register_request m repo rev f d t resolver ef).1
  | .seeding repo rev =>
    (P2PBatchManager.register_seeding_task m repo rev resolver ef cache padEx).1

/-- A sequence of registrations of either kind (serialized: the
lookup-or-create section of both entry points runs under the
manager-wide lock). -/
def runMgrOps (resolver : String → String → Option TorrentMeta)
    (ef : Option (List EngineFile)) (cache : String → Option String)
    (padEx : String → Bool) (m : Manager) : List MgrOp → Manager
  | [] => m
  | op :: rest =>
    runMgrOps resolver ef cache padEx (applyMgrOp resolver ef cache padEx m op) rest

/-- How many sessions the coordinator's map holds for key `k`. -/
def keyCount (m : Manager) (k : String × String) : Nat :=
  m.sessions.countP (fun p => p.1 == k)

theorem countP_map_keep_fst (q : (String × String) → Bool)
    (F : ((String × String) × SessionState) → ((String × String) × SessionState))
    (hF : ∀ p, (F p).1 = p.1) (l : List ((String × String) × SessionState)) :
    (l.map F).countP (fun p => q p.1) = l.countP (fun p => q p.1) := by
  induction l with
  | nil => rfl
  | cons p rest ih => simp [List.countP_cons, hF, ih]

theorem keyCount_withSession (m : Manager) (k' : String × String)
    (s0 : SessionState) (k : String × String) :
    keyCount (m.withSession k' s0) k = keyCount m k := by
  unfold keyCount Manager.withSession
  exact countP_map_keep_fst (fun x => x == k) _
    (fun p => by split <;> rfl) m.sessions

theorem lookup_none_keyCount (m : Manager) (k : String × String)
    (h : m.lookup k = none) : keyCount m k = 0 := by
  unfold Manager.lookup at h
  have hf := Option.map_eq_none'.mp h
  rw [List.find?_eq_none] at hf
  unfold keyCount
  rw [List.countP_eq_zero]
  exact hf

theorem lookup_some_keyCount (m : Manager) (k : String × String)
    (s0 : SessionState) (h : m.lookup k = some s0) : 1 ≤ keyCount m k := by
  unfold Manager.lookup at h
  obtain ⟨p, hp, -⟩ := Option.map_eq_some'.mp h
  have hm := List.mem_of_find?_eq_some hp
  have hpr := List.find?_some hp
  unfold keyCount
  exact List.countP_pos_iff.mpr ⟨p, hm, hpr⟩

theorem keyCount_register (resolver : String → String → Option TorrentMeta)
    (ef : Option (List EngineFile)) (m : Manager) (repo rev f d : String)
    (t : Nat) (k : String × String) :
    keyCount (P2PBatchManager.register_request m repo rev f d t resolver ef).1 k =
      keyCount m k +
        (match m.lookup (repo, rev) with
         | some _ => 0
         | none => if (repo, rev) == k then 1 else 0) := by
  unfold P2PBatchManager.register_request
  dsimp only
  cases hlk : m.lookup (repo, rev) with
  | some s0 =>
    dsimp only
    rw [keyCount_withSession]
    rfl
  | none =>
    dsimp only
    rw [keyCount_withSession]
    unfold keyCount
    rw [List.countP_append]
    simp [List.countP_cons]

theorem keyCount_register_seeding (resolver : String → String → Option TorrentMeta)
    (ef : Option (List EngineFile)) (cache : String → Option String)
    (padEx : String → Bool) (m : Manager) (repo rev : String)
    (k : String × String) :
    keyCount
        (P2PBatchManager.register_seeding_task m repo rev resolver ef cache padEx).1
        k =
      keyCount m k +
        (match m.lookup (repo, rev) with
         | some _ => 0
         | none => if (repo, rev) == k then 1 else 0) := by
  unfold P2PBatchManager.register_seeding_task
  dsimp only
  cases hlk : m.lookup (repo, rev) with
  | some s0 =>
    dsimp only
    split
    · rfl
    · split
      · rw [keyCount_withSession]
        rfl
      · rw [keyCount_withSession]
        rfl
  | none =>
    dsimp only
    have happ : keyCount
        (⟨m.sessions ++ [((repo, rev), SessionContext.new repo rev 30 true)]⟩ :
          Manager) k =
        keyCount m k + (if (repo, rev) == k then 1 else 0) := by
      unfold keyCount
      rw [List.countP_append]
      simp [List.countP_cons]
    split
    · exact happ
    · split
      · rw [keyCount_withSession]
        exact happ
      · rw [keyCount_withSession]
        exact happ

theorem keyCount_applyMgrOp (resolver : String → String → Option TorrentMeta)
    (ef : Option (List EngineFile)) (cache : String → Option String)
    (padEx : String → Bool) (m : Manager) (op : MgrOp) (k : String × String) :
    keyCount (applyMgrOp resolver ef cache padEx m op) k =
      keyCount m k +
        (match m.lookup op.key with
         | some _ => 0
         | none => if op.key == k then 1 else 0) := by
  cases op with
  | download repo rev f d t => exact keyCount_register resolver ef m repo rev f d t k
  | seeding repo rev =>
    exact keyCount_register_seeding resolver ef cache padEx m repo rev k

theorem keyCount_runMgrOps_le_one
    (resolver : String → String → Option TorrentMeta)
    (ef : Option (List EngineFile)) (cache : String → Option String)
    (padEx : String → Bool) (ops : List MgrOp) (m : Manager)
    (k : String × String) (h : keyCount m k ≤ 1) :
    keyCount (runMgrOps resolver ef cache padEx m ops) k ≤ 1 := by
  induction ops generalizing m with
  | nil => exact h
  | cons op rest ih =>
    refine ih _ ?_
    rw [keyCount_applyMgrOp]
    cases hlk : m.lookup op.key with
    | some s0 => simpa using h
    | none =>
      by_cases hkk : (op.key == k) = true
      · have hkeq : op.key = k := eq_of_beq hkk
        have h0 : keyCount m k = 0 := lookup_none_keyCount m k (hkeq ▸ hlk)
        simp [hkk, h0]
      · simp only [Bool.not_eq_true] at hkk
        simpa [hkk] using h

theorem keyCount_runMgrOps_mono
    (resolver : String → String → Option TorrentMeta)
    (ef : Option (List EngineFile)) (cache : String → Option String)
    (padEx : String → Bool) (ops : List MgrOp) (m : Manager)
    (k : String × String) :
    keyCount m k ≤ keyCount (runMgrOps resolver ef cache padEx m ops) k := by
  induction ops generalizing m with
  | nil => exact Nat.le_refl _
  | cons op rest ih =>
    refine Nat.le_trans ?_ (ih _)
    rw [keyCount_applyMgrOp]
    exact Nat.le_add_right _ _

theorem keyCount_runMgrOps_hit
    (resolver : String → String → Option TorrentMeta)
    (ef : Option (List EngineFile)) (cache : String → Option String)
    (padEx : String → Bool) (ops : List MgrOp) (m : Manager)
    (k : String × String) (h : ∃ op ∈ ops, op.key = k) :
    1 ≤ keyCount (runMgrOps resolver ef cache padEx m ops) k := by
  induction ops generalizing m with
  | nil =>
    obtain ⟨op, hmem, -⟩ := h
    cases hmem
  | cons op rest ih =>
    obtain ⟨op0, hmem, hkey⟩ := h
    rcases List.mem_cons.mp hmem with rfl | hmem0
    · refine Nat.le_trans ?_
        (keyCount_runMgrOps_mono resolver ef cache padEx rest _ k)
      rw [keyCount_applyMgrOp]
      cases hlk : m.lookup op0.key with
      | some s0 =>
        have := lookup_some_keyCount m op0.key s0 hlk
        rw [hkey] at this
        simpa using this
      | none =>
        have hkk : (op0.key == k) = true := by
          rw [hkey]
          exact beq_self_eq_true k
        simp [hkk]
    · exact ih _ ⟨op0, hmem0, hkey⟩

/-- Counterexample to C1 as stated: two concurrent `registerSeeding`
callers for the same key both run `_init_torrent` without the Session
lock; the interleaving check-check-create-create makes each of them call
`add_torrent`, creating two engine transfer handles. -/
theorem c1_counterexample :
    (runSched (mkSys [TKind.seed, TKind.seed]) [0, 1, 0, 1]).created = 2 ∧
    ¬ (runSched (mkSys [TKind.seed, TKind.seed]) [0, 1, 0, 1]).created ≤ 1 := by
  constructor
  · decide
  · decide

/-- Claim C1 (amended): across any serialized sequence of registrations
through either entry point — `registerDownload` or `registerSeeding`,
whose lookup-or-create sections both run under the manager-wide lock —
the coordinator's map holds exactly one session per registered key (at
most one for any key); and for concurrent `registerDownload` callers —
whose initialization runs under the Session lock and returns the existing
handle when one is present — every interleaving creates at most one
engine transfer handle.  (Concurrent `registerSeeding` callers initialize
without the Session lock and can duplicate the handle; see the
counterexample.) -/
theorem c1_one_session_per_key_and_locked_init_once :
    (∀ (resolver : String → String → Option TorrentMeta)
        (ef : Option (List EngineFile)) (cache : String → Option String)
        (padEx : String → Bool) (ops : List MgrOp) (k : String × String),
      keyCount (runMgrOps resolver ef cache padEx ⟨[]⟩ ops) k ≤ 1 ∧
      ((∃ op ∈ ops, op.key = k) →
        keyCount (runMgrOps resolver ef cache padEx ⟨[]⟩ ops) k = 1)) ∧
    (∀ (kinds : List TKind) (sched : List Nat),
      (∀ t ∈ kinds, t = TKind.dl) →
      (runSched (mkSys kinds) sched).created ≤ 1) := by
  constructor
  · intro resolver ef cache padEx ops k
    have hle := keyCount_runMgrOps_le_one resolver ef cache padEx ops
      (⟨[]⟩ : Manager) k (by unfold keyCount; exact Nat.zero_le 1)
    refine ⟨hle, fun hex => ?_⟩
    have hge := keyCount_runMgrOps_hit resolver ef cache padEx ops
      (⟨[]⟩ : Manager) k hex
    omega
  · exact dl_creates_at_most_one_handle

/-- Witness for C1 (amended): a download registration followed by a
seeding registration for the same key still yields exactly one session
for that key, and an interleaved pair of download threads creates at most
one handle. -/
theorem c1_witness :
    ((∃ op ∈ [MgrOp.download "org/model" "main" "a.bin" "/tmp/a" 300,
              MgrOp.seeding "org/model" "main"],
        op.key = ("org/model", "main")) ∧
      keyCount (runMgrOps (fun _ _ => some ⟨some "m"⟩) none (fun _ => none)
          (fun _ => false) ⟨[]⟩
          [MgrOp.download "org/model" "main" "a.bin" "/tmp/a" 300,
           MgrOp.seeding "org/model" "main"])
        ("org/model", "main") = 1) ∧
    ((∀ t ∈ [TKind.dl, TKind.dl], t = TKind.dl) ∧
      (runSched (mkSys [TKind.dl, TKind.dl]) [0, 1, 0, 0, 1, 0, 1, 1]).created ≤ 1) :=
  ⟨⟨⟨MgrOp.download "org/model" "main" "a.bin" "/tmp/a" 300, by decide, by decide⟩,
    (c1_one_session_per_key_and_locked_init_once.1 (fun _ _ => some ⟨some "m"⟩)
        none (fun _ => none) (fun _ => false)
        [MgrOp.download "org/model" "main" "a.bin" "/tmp/a" 300,
         MgrOp.seeding "org/model" "main"] ("org/model", "main")).2
      ⟨MgrOp.download "org/model" "main" "a.bin" "/tmp/a" 300, by decide, by decide⟩⟩,
   ⟨by decide,
    c1_one_session_per_key_and_locked_init_once.2 [TKind.dl, TKind.dl]
      [0, 1, 0, 0, 1, 0, 1, 1] (by decide)⟩⟩

end Llmpt
